import Mathlib

/-!
Shallow embedding of the remote project synchronization core of the
codewind-installer CLI (`actions/project.go`): the file-tree walk, the
change-set computation against a millisecond cursor, the content encoding
pipeline (JSON string escaping, zlib compression, base64), and the
begin / upload / end call sequencing of `BindProject`, `SyncProject`,
`syncFiles`, `completeRemotebind` and `completeUpload`.

Bytes are modelled as `Nat` (values 0..255), byte strings as `List Nat`.
File paths are modelled as lists of path segments relative to the project
root (the Go code computes `path[(len(projectPath)+1):]`, i.e. it strips
the root prefix and the separator, which for a clean root is exactly the
segment list below the root).  The zlib compressor is an external library
(`compress/zlib`); it is modelled as an explicit function parameter
`comp : List Nat → List Nat`, with its library contract (lossless, never
producing empty output: a zlib stream always has a 2-byte header and a
4-byte checksum) taken as a hypothesis where a claim needs it.
-/

namespace Codewind

/-! ## ContentCodec: Go `json.Marshal` applied to a Go string

`syncFiles` runs `jsonContent, err := json.Marshal(string(fileContent))`.
Go marshals a string value as a JSON string literal, escaping per
`encoding/json` with `escapeHTML = true`, and coercing invalid UTF-8 to
the Unicode replacement character U+FFFD.  The functions below reproduce
that byte-for-byte. -/

/-- Lowercase hex digit byte for a value below 16, as used by Go in
the `\u00xx` escapes written by `encoding/json`. -/
def hexDigit (n : Nat) : Nat :=
  if n < 10 then 48 + n else 87 + n

/-- Is an ASCII byte in Go's `htmlSafeSet`, i.e. emitted verbatim by
`encoding/json` with HTML escaping on: printable, not quote, backslash,
angle bracket or ampersand. -/
def htmlSafe (b : Nat) : Bool :=
  0x20 ≤ b && b ≤ 0x7F && b != 0x22 && b != 0x5C && b != 0x3C && b != 0x3E && b != 0x26

/-- Escape of a single ASCII byte (below 0x80), per Go `encoding/json`:
safe bytes pass through; backslash, quote, newline, carriage return and
tab get two-byte escapes; everything else becomes `\u00xx`. -/
def asciiEsc (b : Nat) : List Nat :=
  if htmlSafe b then [b]
  else if b = 0x5C then [0x5C, 0x5C]
  else if b = 0x22 then [0x5C, 0x22]
  else if b = 0x0A then [0x5C, 0x6E]
  else if b = 0x0D then [0x5C, 0x72]
  else if b = 0x09 then [0x5C, 0x74]
  else [0x5C, 0x75, 0x30, 0x30, hexDigit (b / 16), hexDigit (b % 16)]

/-- UTF-8 continuation byte test (0x80..0xBF). -/
def isCont (b : Nat) : Bool := 0x80 ≤ b && b ≤ 0xBF

/-- Admissible second byte of a three-byte UTF-8 sequence with leader `b`,
per Go `unicode/utf8` (rejects overlong forms and surrogates). -/
def accept3 (b b1 : Nat) : Bool :=
  if b = 0xE0 then 0xA0 ≤ b1 && b1 ≤ 0xBF
  else if b = 0xED then 0x80 ≤ b1 && b1 ≤ 0x9F
  else isCont b1

/-- Admissible second byte of a four-byte UTF-8 sequence with leader `b`,
per Go `unicode/utf8` (rejects overlong forms and values above U+10FFFF). -/
def accept4 (b b1 : Nat) : Bool :=
  if b = 0xF0 then 0x90 ≤ b1 && b1 ≤ 0xBF
  else if b = 0xF4 then 0x80 ≤ b1 && b1 ≤ 0x8F
  else isCont b1

/-- The six ASCII bytes of the escape `backslash u f f f d` (U+FFFD
REPLACEMENT CHARACTER): Go `encoding/json` writes this escape whenever
UTF-8 decoding of the marshalled string yields `(RuneError, 1)`. -/
def replEsc : List Nat := [0x5C, 0x75, 0x66, 0x66, 0x66, 0x64]

/-- The six ASCII bytes of the escape `backslash u 2 0 2 8` (U+2028 LINE
SEPARATOR, escaped by Go `encoding/json`). -/
def lsEsc : List Nat := [0x5C, 0x75, 0x32, 0x30, 0x32, 0x38]

/-- The six ASCII bytes of the escape `backslash u 2 0 2 9` (U+2029
PARAGRAPH SEPARATOR, escaped by Go `encoding/json`). -/
def psEsc : List Nat := [0x5C, 0x75, 0x32, 0x30, 0x32, 0x39]

/-- Body of the JSON string literal Go `encoding/json` produces for a Go
string holding the given bytes (without the surrounding quotes): ASCII is
escaped by `asciiEsc`; well-formed multi-byte UTF-8 passes through raw
except U+2028/U+2029; any byte at which UTF-8 decoding fails is consumed
alone and replaced by `replEsc`. -/
def escapeGo : Nat → List Nat → List Nat
  | _, [] => []
  | 0, _ => []
  | fuel + 1, b :: rest =>
    if b < 0x80 then asciiEsc b ++ escapeGo fuel rest
    else if 0xC2 ≤ b && b ≤ 0xDF then
      match rest with
      | b1 :: rest1 =>
        if isCont b1 then b :: b1 :: escapeGo fuel rest1
        else replEsc ++ escapeGo fuel rest
      | [] => replEsc
    else if 0xE0 ≤ b && b ≤ 0xEF then
      match rest with
      | b1 :: b2 :: rest2 =>
        if accept3 b b1 && isCont b2 then
          (if b = 0xE2 && b1 = 0x80 && b2 = 0xA8 then lsEsc
           else if b = 0xE2 && b1 = 0x80 && b2 = 0xA9 then psEsc
           else [b, b1, b2]) ++ escapeGo fuel rest2
        else replEsc ++ escapeGo fuel rest
      | _ => replEsc ++ escapeGo fuel rest
    else if 0xF0 ≤ b && b ≤ 0xF4 then
      match rest with
      | b1 :: b2 :: b3 :: rest3 =>
        if accept4 b b1 && isCont b2 && isCont b3 then
          b :: b1 :: b2 :: b3 :: escapeGo fuel rest3
        else replEsc ++ escapeGo fuel rest
      | _ => replEsc ++ escapeGo fuel rest
    else replEsc ++ escapeGo fuel rest

/-- The escape loop applied with enough fuel: every iteration of the Go
encoder consumes at least one byte, so fuel equal to the length of the
byte list is never exhausted and `escapeGo` computes the full escape. -/
def escapeBytes (l : List Nat) : List Nat :=
  escapeGo l.length l

/-- Bytes of `json.Marshal(string(content))`: the escaped body wrapped in
double quotes. -/
def jsonMarshalStringBytes (content : List Nat) : List Nat :=
  0x22 :: escapeBytes content ++ [0x22]

/-! ## base64 standard encoding (`encoding/base64` StdEncoding) -/

/-- Byte of the standard base64 alphabet at index `n < 64`. -/
def b64Char (n : Nat) : Nat :=
  if n < 26 then 65 + n
  else if n < 52 then 97 + (n - 26)
  else if n < 62 then 48 + (n - 52)
  else if n = 62 then 43 else 47

/-- Standard base64 encoding with padding of a byte string, as
`base64.StdEncoding.EncodeToString` produces (result as ASCII bytes). -/
def base64Encode : List Nat → List Nat
  | [] => []
  | [a] => [b64Char (a / 4), b64Char (a % 4 * 16), 61, 61]
  | [a, b] => [b64Char (a / 4), b64Char (a % 4 * 16 + b / 16), b64Char (b % 16 * 4), 61]
  | a :: b :: c :: rest =>
    b64Char (a / 4) :: b64Char (a % 4 * 16 + b / 16) ::
      b64Char (b % 16 * 4 + c / 64) :: b64Char (c % 64) :: base64Encode rest

/-- The content encoding pipeline of `syncFiles`, parameterized by the
zlib compressor `comp`: JSON-string-escape the raw bytes
(`json.Marshal(string(fileContent))`), compress the escaped text
(`zlib.NewWriter` / `Write` / `Close`), then base64-encode the
compressed bytes (`base64.StdEncoding.EncodeToString`). -/
def encodeWith (comp : List Nat → List Nat) (content : List Nat) : List Nat :=
  base64Encode (comp (jsonMarshalStringBytes content))

/-! ## Filesystem model and the walk of `filepath.Walk`

The local project is a tree of directories and regular files.  A regular
file carries its modification time in nanoseconds since the epoch
(`info.ModTime().UnixNano()`, non-negative for any real project file) and
its content; `content = none` models a file for which `ioutil.ReadFile`
returns an error.  `filepath.Walk` visits the root, then descends
depth-first, invoking the callback once per visited path; since the
callback in `syncFiles` always returns nil, the visit order is exactly
the depth-first flattening below (children listed in the lexical order
`filepath.Walk` uses). -/

/-- Metadata and content of one regular file on disk. -/
structure RegFile where
  modTimeNanos : Nat
  content : Option (List Nat)
  deriving DecidableEq

/-- A directory entry: a regular file or a subdirectory with entries. -/
inductive FSTree where
  | file (name : String) (f : RegFile)
  | dir (name : String) (children : List FSTree)

/-- What `filepath.Walk` hands to the callback for one visited path:
the path (as segments relative to the project root), the directory flag
(`info.IsDir()`), the modification time (`info.ModTime().UnixNano()`)
and, for regular files, the content `ioutil.ReadFile` would produce. -/
structure WalkEntry where
  relPath : List String
  isDir : Bool
  modTimeNanos : Nat
  content : Option (List Nat)
  deriving DecidableEq

mutual

/-- Depth-first visit sequence of one tree entry under prefix `pre`. -/
def walkEntries (pre : List String) : FSTree → List WalkEntry
  | .file n f => [⟨pre ++ [n], false, f.modTimeNanos, f.content⟩]
  | .dir n cs => ⟨pre ++ [n], true, 0, none⟩ :: walkForest (pre ++ [n]) cs

/-- Depth-first visit sequence of a list of sibling entries. -/
def walkForest (pre : List String) : List FSTree → List WalkEntry
  | [] => []
  | t :: ts => walkEntries pre t ++ walkForest pre ts

end

/-- Full visit sequence of `filepath.Walk(projectPath, ...)` over a
project whose root directory holds the entries `ts`: the root itself is
visited first (it is a directory, with relative path the empty segment
list), then every entry below it. -/
def walkProject (ts : List FSTree) : List WalkEntry :=
  ⟨[], true, 0, none⟩ :: walkForest [] ts

/-! ## Requests and call events (the wire side of one run) -/

/-- The `FileUploadMsg` JSON body of one PUT upload call:
`{isDirectory, path, msg}`.  The path is kept as segments; `Message`
holds the bytes of the base64 text placed in `msg`. -/
structure FileUploadMsg where
  IsDirectory : Bool
  RelativePath : List String
  Message : List Nat
  deriving DecidableEq

/-- The `CompleteRequest` body of the `upload/end` call:
`{fileList, modifiedList, timeStamp}`. -/
structure CompleteRequest where
  FileList : List (List String)
  ModifiedList : List (List String)
  TimeStamp : Int
  deriving DecidableEq

/-- The `BindRequest` body of the `remote-bind/start` call. -/
structure BindRequest where
  Language : String
  ProjectType : String
  Name : String
  Path : String
  deriving DecidableEq

/-- One network call issued during a run, in the order issued. -/
inductive CallEvent where
  | bindStart (req : BindRequest)
  | upload (msg : FileUploadMsg)
  | bindEnd (projectID : String)
  | uploadEnd (req : CompleteRequest)
  deriving DecidableEq

/-- Is the event an end-of-transfer call (`remote-bind/end` or
`upload/end`)? -/
def CallEvent.isEnd : CallEvent → Bool
  | .bindEnd _ => true
  | .uploadEnd _ => true
  | _ => false

/-- The timeStamp fields carried by the `upload/end` calls among a run's
events, in order. -/
def endTimeStamps (evs : List CallEvent) : List Int :=
  evs.filterMap (fun ev => match ev with
    | .uploadEnd r => some r.TimeStamp
    | _ => none)

/-! ## `syncFiles`

The walk callback of `syncFiles`, translated line by line.  The upload
transport is a function `uploadResp : Nat → Option Nat` giving, for the
k-th PUT request of the run, `client.Do`'s outcome: `none` means `Do`
returned an error (and `resp` is nil, so the immediately following
`resp.Status` dereference panics — modelled by `crashed = true`), and
`some s` means a response with HTTP status `s` arrived (the status is
printed and otherwise ignored by the code). -/

/-- Result of a `syncFiles` run: the two accumulated lists it returns,
the upload calls it issued, and whether the process panicked. -/
structure SyncOutcome where
  fileList : List (List String)
  modifiedList : List (List String)
  uploads : List FileUploadMsg
  crashed : Bool
  deriving DecidableEq

/-- The body of the `filepath.Walk` callback in `syncFiles`, folded over
the visit sequence with the accumulated state (`fileList`,
`modifiedList`, issued uploads) as explicit arguments. -/
def syncFilesGo (comp : List Nat → List Nat) (uploadResp : Nat → Option Nat) (synctime : Int) :
    List WalkEntry → List (List String) → List (List String) → List FileUploadMsg → SyncOutcome
  | [], fl, ml, ups => ⟨fl, ml, ups, false⟩
  | e :: rest, fl, ml, ups =>
    if e.isDir then
      -- the callback does nothing for directories (the whole body is
      -- guarded by `if !info.IsDir()`)
      syncFilesGo comp uploadResp synctime rest fl ml ups
    else
      -- fileList = append(fileList, relativePath)
      let fl1 := fl ++ [e.relPath]
      -- modifiedmillis := info.ModTime().UnixNano() / 1000000
      -- (int64 division; modification times are non-negative, where Go's
      -- truncating division agrees with Nat division)
      if ((e.modTimeNanos / 1000000 : Nat) : Int) > synctime then
        -- fileContent, err := ioutil.ReadFile(path) — on error, Go leaves
        -- fileContent nil (the empty byte string) ...
        let fileContent := e.content.getD []
        -- ... and the read error in err is immediately overwritten by
        -- jsonContent, err := json.Marshal(string(fileContent)), which
        -- never fails for a string value, so err is nil here and the
        -- `if err != nil { return nil }` skip branch is never taken.
        let marshalErr : Option Unit := none
        if marshalErr.isSome then
          syncFilesGo comp uploadResp synctime rest fl1 ml ups
        else
          let jsonContent := jsonMarshalStringBytes fileContent
          -- modifiedList = append(modifiedList, relativePath)
          let ml1 := ml ++ [e.relPath]
          -- zlib-compress jsonContent, base64-encode, build the body
          let encoded := base64Encode (comp jsonContent)
          let msg : FileUploadMsg := ⟨e.isDir, e.relPath, encoded⟩
          let ups1 := ups ++ [msg]
          -- resp, err := client.Do(request); the next line dereferences
          -- resp.Status, so err != nil (resp nil) panics the process
          match uploadResp ups.length with
          | none => ⟨fl1, ml1, ups1, true⟩
          | some _status => syncFilesGo comp uploadResp synctime rest fl1 ml1 ups1
      else
        syncFilesGo comp uploadResp synctime rest fl1 ml ups

/-- `syncFiles(projectPath, projectId, synctime)`: walk the project tree
and process every visited entry, starting from empty lists. -/
def syncFiles (comp : List Nat → List Nat) (uploadResp : Nat → Option Nat)
    (root : List FSTree) (synctime : Int) : SyncOutcome :=
  syncFilesGo comp uploadResp synctime (walkProject root) [] [] []

/-! ## `SyncProject` and `BindProject` -/

/-- Result of one orchestrated run: the outcome of the inner `syncFiles`,
the network calls issued in order, and whether the process panicked. -/
structure RunResult where
  outcome : SyncOutcome
  events : List CallEvent
  crashed : Bool

/-- `SyncProject`: run `syncFiles` with the caller-supplied cursor, then
`completeUpload(projectID, fileList, modifiedList, synctime)`, which
POSTs a `CompleteRequest` carrying the two lists and the same `synctime`
to `upload/end`.  If `syncFiles` panicked, the process died and the end
call never happens.  `completeUpload` dereferences `resp.Status` before
checking `err`, so a transport error on the end call (`endResp = none`)
panics after the call was issued. -/
def syncProjectGo (comp : List Nat → List Nat) (uploadResp : Nat → Option Nat)
    (endResp : Option Nat) (root : List FSTree) (synctime : Int) : RunResult :=
  let s := syncFiles comp uploadResp root synctime
  if s.crashed then ⟨s, s.uploads.map .upload, true⟩
  else
    let req : CompleteRequest := ⟨s.fileList, s.modifiedList, synctime⟩
    match endResp with
    | none => ⟨s, s.uploads.map .upload ++ [.uploadEnd req], true⟩
    | some _ => ⟨s, s.uploads.map .upload ++ [.uploadEnd req], false⟩

/-- `BindProject`: POST the `BindRequest` to `remote-bind/start`.
`beginResp = none` models `client.Do` returning an error: the function
returns at once, with no further call.  `some (status, pid?)` models a
response: its body is unmarshalled and `projectInfo["projectID"].(string)`
is asserted — `pid? = none` (body not JSON, or no string `projectID`
field) panics before any upload; the HTTP status itself is never
inspected.  With a projectID in hand, `syncFiles(projectPath, projectID,
0)` runs (its return values are discarded), then `completeRemotebind`
POSTs to `remote-bind/end`; that call too dereferences `resp.Status`
before checking `err`, so `endResp = none` panics after the call. -/
def bindProjectGo (comp : List Nat → List Nat) (uploadResp : Nat → Option Nat)
    (beginResp : Option (Nat × Option String)) (endResp : Option Nat)
    (req : BindRequest) (root : List FSTree) : RunResult :=
  match beginResp with
  | none => ⟨⟨[], [], [], false⟩, [.bindStart req], false⟩
  | some (_status, none) => ⟨⟨[], [], [], false⟩, [.bindStart req], true⟩
  | some (_status, some pid) =>
    let s := syncFiles comp uploadResp root 0
    if s.crashed then ⟨s, .bindStart req :: s.uploads.map .upload, true⟩
    else
      match endResp with
      | none => ⟨s, .bindStart req :: s.uploads.map .upload ++ [.bindEnd pid], true⟩
      | some _ => ⟨s, .bindStart req :: s.uploads.map .upload ++ [.bindEnd pid], false⟩

/-! ## Specification-side characterizations

The following definitions restate, in the spec's vocabulary
(FileTreeWalker, ChangeSetComputer, TransferEnvelope), what the lists
accumulated by `syncFiles` should be; the theorems below compare them
with what the code computes. -/

/-- The spec's modified-file test: is the entry's modification time in
milliseconds strictly greater than the cursor? -/
def isMod (synctime : Int) (e : WalkEntry) : Bool :=
  decide (((e.modTimeNanos / 1000000 : Nat) : Int) > synctime)

/-- The `allFiles` list of the spec's ChangeSet: one relative path per
regular (non-directory) visited entry, in visit order. -/
def filesSpec (es : List WalkEntry) : List (List String) :=
  (es.filter (fun e => !e.isDir)).map (·.relPath)

/-- The `modifiedFiles` list of the spec's ChangeSet: the regular files
whose modification time is strictly beyond the cursor. -/
def modSpec (synctime : Int) (es : List WalkEntry) : List (List String) :=
  (es.filter (fun e => !e.isDir && isMod synctime e)).map (·.relPath)

/-- The sequence of TransferEnvelopes for the modified files: path,
directory flag and the encoded content (the empty byte string when the
read failed, as the code substitutes). -/
def upSpec (comp : List Nat → List Nat) (synctime : Int) (es : List WalkEntry) :
    List FileUploadMsg :=
  (es.filter (fun e => !e.isDir && isMod synctime e)).map
    (fun e => ⟨e.isDir, e.relPath, encodeWith comp (e.content.getD [])⟩)

mutual

/-- Relative paths of the regular files of one tree entry, by recursive
descent (the spec's FileTreeWalker output for that entry). -/
def filePathsT (pre : List String) : FSTree → List (List String)
  | .file n _ => [pre ++ [n]]
  | .dir n cs => filePathsF (pre ++ [n]) cs

/-- Relative paths of the regular files of a list of sibling entries. -/
def filePathsF (pre : List String) : List FSTree → List (List String)
  | [] => []
  | t :: ts => filePathsT pre t ++ filePathsF pre ts

end

mutual

/-- Relative paths of the directories of one tree entry. -/
def dirPathsT (pre : List String) : FSTree → List (List String)
  | .file _ _ => []
  | .dir n cs => (pre ++ [n]) :: dirPathsF (pre ++ [n]) cs

/-- Relative paths of the directories of a list of sibling entries. -/
def dirPathsF (pre : List String) : List FSTree → List (List String)
  | [] => []
  | t :: ts => dirPathsT pre t ++ dirPathsF pre ts

end

/-- The entry's own name. -/
def nameOf : FSTree → String
  | .file n _ => n
  | .dir n _ => n

/-- Are the strings pairwise distinct? -/
def distinctB : List String → Bool
  | [] => true
  | x :: xs => !(decide (x ∈ xs)) && distinctB xs

mutual

/-- Well-formed filesystem entry: inside every directory the entry names
are pairwise distinct (as a real filesystem guarantees). -/
def wfT : FSTree → Bool
  | .file _ _ => true
  | .dir _ cs => distinctB (cs.map nameOf) && wfF cs

/-- Well-formed list of sibling entries. -/
def wfF : List FSTree → Bool
  | [] => true
  | t :: ts => wfT t && wfF ts

end

/-- Well-formed project root: distinct names at top level and every
subtree well-formed. -/
def wfRoot (ts : List FSTree) : Bool :=
  distinctB (ts.map nameOf) && wfF ts

/-! ## Behaviour of the walk loop -/

/-- When every upload request gets a response (no network-level error),
the loop never panics and its three accumulated lists are exactly the
spec-side ChangeSet and envelope sequence, appended to the incoming
accumulators. -/
theorem syncFilesGo_eq (comp : List Nat → List Nat) (uploadResp : Nat → Option Nat)
    (h : ∀ k, (uploadResp k).isSome) (t : Int) :
    ∀ es fl ml ups, syncFilesGo comp uploadResp t es fl ml ups =
      ⟨fl ++ filesSpec es, ml ++ modSpec t es, ups ++ upSpec comp t es, false⟩ := by
  intro es
  induction es with
  | nil =>
    intro fl ml ups
    simp [syncFilesGo, filesSpec, modSpec, upSpec]
  | cons e rest ih =>
    intro fl ml ups
    by_cases hd : e.isDir
    · simp [syncFilesGo, hd, filesSpec, modSpec, upSpec, List.filter_cons, ih]
    · by_cases hm : ((e.modTimeNanos / 1000000 : Nat) : Int) > t
      · obtain ⟨s, hs⟩ := Option.isSome_iff_exists.mp (h ups.length)
        have hm2 : t < (e.modTimeNanos : Int) / 1000000 := by exact_mod_cast hm
        simp only [syncFilesGo, hd, hm, hs, Bool.false_eq_true, if_false, if_true,
          Option.isSome_none, Bool.not_true]
        simp only [ih]
        simp [filesSpec, modSpec, upSpec, List.filter_cons, hd, isMod, hm, hm2, encodeWith,
          List.append_assoc]
      · have hm2 : ¬ t < (e.modTimeNanos : Int) / 1000000 := by
          intro hc
          exact hm (by exact_mod_cast hc)
        simp only [syncFilesGo, hd, hm, Bool.false_eq_true, if_false, if_true]
        simp only [ih]
        simp [filesSpec, modSpec, upSpec, List.filter_cons, hd, isMod, hm, hm2,
          List.append_assoc]

/-- Whatever the transport does (including crashes part-way), every path
in the returned `modifiedList` is also in the returned `fileList`,
provided that already held of the incoming accumulators. -/
theorem syncFilesGo_mod_sub_file (comp : List Nat → List Nat) (uploadResp : Nat → Option Nat)
    (t : Int) :
    ∀ es fl ml ups, (∀ p, p ∈ ml → p ∈ fl) →
      ∀ p, p ∈ (syncFilesGo comp uploadResp t es fl ml ups).modifiedList →
        p ∈ (syncFilesGo comp uploadResp t es fl ml ups).fileList := by
  intro es
  induction es with
  | nil =>
    intro fl ml ups hinv p
    simpa [syncFilesGo] using hinv p
  | cons e rest ih =>
    intro fl ml ups hinv p
    have hinv1 : ∀ q, q ∈ ml ++ [e.relPath] → q ∈ fl ++ [e.relPath] := by
      intro q hq
      rcases List.mem_append.mp hq with hq | hq
      · exact List.mem_append.mpr (Or.inl (hinv q hq))
      · exact List.mem_append.mpr (Or.inr hq)
    have hinv0 : ∀ q, q ∈ ml → q ∈ fl ++ [e.relPath] := by
      intro q hq
      exact List.mem_append.mpr (Or.inl (hinv q hq))
    by_cases hd : e.isDir
    · simpa [syncFilesGo, hd] using ih fl ml ups hinv p
    · by_cases hm : ((e.modTimeNanos / 1000000 : Nat) : Int) > t
      · cases hs : uploadResp ups.length with
        | none =>
          simp only [syncFilesGo, hd, hm, hs, Bool.false_eq_true, if_false, if_true,
            Option.isSome_none, Bool.not_true]
          simpa using hinv1 p
        | some s =>
          simp only [syncFilesGo, hd, hm, hs, Bool.false_eq_true, if_false, if_true,
            Option.isSome_none, Bool.not_true]
          exact ih _ _ _ hinv1 p
      · simp only [syncFilesGo, hd, hm, Bool.false_eq_true, if_false, if_true]
        exact ih _ _ _ hinv0 p

/-- Whatever the transport does, every issued upload's path is in the
returned `modifiedList`, provided that already held of the incoming
accumulators. -/
theorem syncFilesGo_uploads_in_mod (comp : List Nat → List Nat) (uploadResp : Nat → Option Nat)
    (t : Int) :
    ∀ es fl ml ups, (∀ m, m ∈ ups → m.RelativePath ∈ ml) →
      ∀ m, m ∈ (syncFilesGo comp uploadResp t es fl ml ups).uploads →
        m.RelativePath ∈ (syncFilesGo comp uploadResp t es fl ml ups).modifiedList := by
  intro es
  induction es with
  | nil =>
    intro fl ml ups hinv m
    simpa [syncFilesGo] using hinv m
  | cons e rest ih =>
    intro fl ml ups hinv m
    have hinv1 : ∀ q, q ∈ ups ++ [(⟨false, e.relPath,
        base64Encode (comp (jsonMarshalStringBytes (e.content.getD [])))⟩ : FileUploadMsg)] →
        q.RelativePath ∈ ml ++ [e.relPath] := by
      intro q hq
      rcases List.mem_append.mp hq with hq | hq
      · exact List.mem_append.mpr (Or.inl (hinv q hq))
      · rcases List.mem_singleton.mp hq with rfl
        exact List.mem_append.mpr (Or.inr (List.mem_singleton.mpr rfl))
    by_cases hd : e.isDir
    · simpa [syncFilesGo, hd] using ih fl ml ups hinv m
    · by_cases hm : ((e.modTimeNanos / 1000000 : Nat) : Int) > t
      · cases hs : uploadResp ups.length with
        | none =>
          simp only [syncFilesGo, hd, hm, hs, Bool.false_eq_true, if_false, if_true,
            Option.isSome_none, Bool.not_true]
          simpa using hinv1 m
        | some s =>
          simp only [syncFilesGo, hd, hm, hs, Bool.false_eq_true, if_false, if_true,
            Option.isSome_none, Bool.not_true]
          exact ih _ _ _ hinv1 m
      · simp only [syncFilesGo, hd, hm, Bool.false_eq_true, if_false, if_true]
        exact ih _ _ _ hinv m

/-- Whatever the transport does, every issued upload satisfies any
property enjoyed by all freshly built envelopes of regular files,
provided the incoming accumulator does. -/
theorem syncFilesGo_uploads_prop (comp : List Nat → List Nat) (uploadResp : Nat → Option Nat)
    (t : Int) (P : FileUploadMsg → Prop)
    (hP : ∀ e : WalkEntry,
      P ⟨false, e.relPath, base64Encode (comp (jsonMarshalStringBytes (e.content.getD [])))⟩) :
    ∀ es fl ml ups, (∀ m, m ∈ ups → P m) →
      ∀ m, m ∈ (syncFilesGo comp uploadResp t es fl ml ups).uploads → P m := by
  intro es
  induction es with
  | nil =>
    intro fl ml ups hinv m
    simpa [syncFilesGo] using hinv m
  | cons e rest ih =>
    intro fl ml ups hinv m
    by_cases hd : e.isDir
    · simpa [syncFilesGo, hd] using ih fl ml ups hinv m
    · have hinv1 : ∀ q, q ∈ ups ++ [(⟨false, e.relPath,
          base64Encode (comp (jsonMarshalStringBytes (e.content.getD [])))⟩ : FileUploadMsg)] →
          P q := by
        intro q hq
        rcases List.mem_append.mp hq with hq | hq
        · exact hinv q hq
        · rcases List.mem_singleton.mp hq with rfl
          exact hP e
      by_cases hm : ((e.modTimeNanos / 1000000 : Nat) : Int) > t
      · cases hs : uploadResp ups.length with
        | none =>
          simp only [syncFilesGo, hd, hm, hs, Bool.false_eq_true, if_false, if_true,
            Option.isSome_none, Bool.not_true]
          simpa using hinv1 m
        | some s =>
          simp only [syncFilesGo, hd, hm, hs, Bool.false_eq_true, if_false, if_true,
            Option.isSome_none, Bool.not_true]
          exact ih _ _ _ hinv1 m
      · simp only [syncFilesGo, hd, hm, Bool.false_eq_true, if_false, if_true]
        exact ih _ _ _ hinv m

/-! ## The walk enumerates exactly the regular files -/

/-- `filesSpec` distributes over concatenation of visit sequences. -/
theorem filesSpec_append (a b : List WalkEntry) :
    filesSpec (a ++ b) = filesSpec a ++ filesSpec b := by
  simp [filesSpec]

mutual

/-- The regular files among the visited entries of one tree entry are
exactly its file paths. -/
theorem filesSpec_walkT (pre : List String) (t : FSTree) :
    filesSpec (walkEntries pre t) = filePathsT pre t := by
  cases t with
  | file n f => simp [walkEntries, filesSpec, filePathsT]
  | dir n cs =>
    have hrec := filesSpec_walkF (pre ++ [n]) cs
    simp [walkEntries, filePathsT, filesSpec, List.filter_cons] at hrec ⊢
    exact hrec

/-- The regular files among the visited entries of a sibling list are
exactly its file paths. -/
theorem filesSpec_walkF (pre : List String) (ts : List FSTree) :
    filesSpec (walkForest pre ts) = filePathsF pre ts := by
  cases ts with
  | nil => simp [walkForest, filesSpec, filePathsF]
  | cons t ts =>
    rw [walkForest, filesSpec_append, filesSpec_walkT pre t, filesSpec_walkF pre ts,
      filePathsF]

end

mutual

/-- Every file path of a tree entry extends the prefix with the entry's
own name. -/
theorem filePathsT_shape (pre : List String) (t : FSTree) (p : List String)
    (h : p ∈ filePathsT pre t) : ∃ r, p = pre ++ nameOf t :: r := by
  cases t with
  | file n f =>
    simp [filePathsT] at h
    exact ⟨[], by simp [h, nameOf]⟩
  | dir n cs =>
    simp only [filePathsT] at h
    obtain ⟨t1, -, r, hr⟩ := filePathsF_shape (pre ++ [n]) cs p h
    exact ⟨nameOf t1 :: r, by simp [hr, nameOf]⟩

/-- Every file path of a sibling list comes from one of the siblings and
extends the prefix with that sibling's name. -/
theorem filePathsF_shape (pre : List String) (ts : List FSTree) (p : List String)
    (h : p ∈ filePathsF pre ts) : ∃ t ∈ ts, ∃ r, p = pre ++ nameOf t :: r := by
  cases ts with
  | nil => simp [filePathsF] at h
  | cons t ts =>
    rw [filePathsF, List.mem_append] at h
    rcases h with h | h
    · obtain ⟨r, hr⟩ := filePathsT_shape pre t p h
      exact ⟨t, by simp, r, hr⟩
    · obtain ⟨t1, ht1, r, hr⟩ := filePathsF_shape pre ts p h
      exact ⟨t1, by simp [ht1], r, hr⟩

end

mutual

/-- Every directory path of a tree entry extends the prefix with the
entry's own name. -/
theorem dirPathsT_shape (pre : List String) (t : FSTree) (p : List String)
    (h : p ∈ dirPathsT pre t) : ∃ r, p = pre ++ nameOf t :: r := by
  cases t with
  | file n f => simp [dirPathsT] at h
  | dir n cs =>
    simp only [dirPathsT, List.mem_cons] at h
    rcases h with h | h
    · exact ⟨[], by simp [h, nameOf]⟩
    · obtain ⟨t1, -, r, hr⟩ := dirPathsF_shape (pre ++ [n]) cs p h
      exact ⟨nameOf t1 :: r, by simp [hr, nameOf]⟩

/-- Every directory path of a sibling list comes from one of the siblings
and extends the prefix with that sibling's name. -/
theorem dirPathsF_shape (pre : List String) (ts : List FSTree) (p : List String)
    (h : p ∈ dirPathsF pre ts) : ∃ t ∈ ts, ∃ r, p = pre ++ nameOf t :: r := by
  cases ts with
  | nil => simp [dirPathsF] at h
  | cons t ts =>
    rw [dirPathsF, List.mem_append] at h
    rcases h with h | h
    · obtain ⟨r, hr⟩ := dirPathsT_shape pre t p h
      exact ⟨t, by simp, r, hr⟩
    · obtain ⟨t1, ht1, r, hr⟩ := dirPathsF_shape pre ts p h
      exact ⟨t1, by simp [ht1], r, hr⟩

end

mutual

/-- In a well-formed tree entry no path is both a directory path and a
file path. -/
theorem dir_file_disjT (pre : List String) (t : FSTree) (hw : wfT t = true)
    (p : List String) (hd : p ∈ dirPathsT pre t) : p ∉ filePathsT pre t := by
  cases t with
  | file n f => simp [dirPathsT] at hd
  | dir n cs =>
    rw [wfT, Bool.and_eq_true] at hw
    intro hf
    rw [filePathsT] at hf
    simp only [dirPathsT, List.mem_cons] at hd
    rcases hd with hd | hd
    · obtain ⟨t1, -, r, hr⟩ := filePathsF_shape (pre ++ [n]) cs p hf
      subst hd
      have hlen := congrArg List.length hr
      simp [List.length_append] at hlen
    · exact dir_file_disjF (pre ++ [n]) cs hw.1 hw.2 p hd hf

/-- In a well-formed sibling list with pairwise distinct names no path is
both a directory path and a file path. -/
theorem dir_file_disjF (pre : List String) (ts : List FSTree)
    (hn : distinctB (ts.map nameOf) = true) (hw : wfF ts = true)
    (p : List String) (hd : p ∈ dirPathsF pre ts) : p ∉ filePathsF pre ts := by
  cases ts with
  | nil => simp [dirPathsF] at hd
  | cons t ts =>
    rw [List.map_cons, distinctB, Bool.and_eq_true] at hn
    rw [wfF, Bool.and_eq_true] at hw
    have hnotin : nameOf t ∉ ts.map nameOf := by
      have := hn.1
      simp only [Bool.not_eq_true', decide_eq_false_iff_not] at this
      exact this
    intro hf
    rw [dirPathsF, List.mem_append] at hd
    rw [filePathsF, List.mem_append] at hf
    rcases hd with hd | hd <;> rcases hf with hf | hf
    · exact dir_file_disjT pre t hw.1 p hd hf
    · obtain ⟨r, hr⟩ := dirPathsT_shape pre t p hd
      obtain ⟨t1, ht1, r1, hr1⟩ := filePathsF_shape pre ts p hf
      have heq : nameOf t :: r = nameOf t1 :: r1 :=
        List.append_cancel_left (hr.symm.trans hr1)
      have hname : nameOf t = nameOf t1 := (List.cons_eq_cons.mp heq).1
      exact hnotin (hname ▸ List.mem_map_of_mem nameOf ht1)
    · obtain ⟨t1, ht1, r1, hr1⟩ := dirPathsF_shape pre ts p hd
      obtain ⟨r, hr⟩ := filePathsT_shape pre t p hf
      have heq : nameOf t1 :: r1 = nameOf t :: r :=
        List.append_cancel_left (hr1.symm.trans hr)
      have hname : nameOf t = nameOf t1 := ((List.cons_eq_cons.mp heq).1).symm
      exact hnotin (hname ▸ List.mem_map_of_mem nameOf ht1)
    · exact dir_file_disjF pre ts hn.2 hw.2 p hd hf

end

/-- With a responsive transport (every upload request gets a response),
`syncFiles` returns exactly the spec-side ChangeSet of the walk, issues
exactly the spec-side envelope sequence, and does not panic. -/
theorem syncFiles_eq (comp : List Nat → List Nat) (uploadResp : Nat → Option Nat)
    (h : ∀ k, (uploadResp k).isSome) (root : List FSTree) (t : Int) :
    syncFiles comp uploadResp root t =
      ⟨filesSpec (walkProject root), modSpec t (walkProject root),
       upSpec comp t (walkProject root), false⟩ := by
  unfold syncFiles
  simpa using syncFilesGo_eq comp uploadResp h t (walkProject root) [] [] []

/-- The regular files visited by the project walk are exactly the file
paths of the tree (the root entry itself is a directory and drops out). -/
theorem filesSpec_walkProject (root : List FSTree) :
    filesSpec (walkProject root) = filePathsF [] root := by
  rw [walkProject]
  show filesSpec (⟨[], true, 0, none⟩ :: walkForest [] root) = filePathsF [] root
  rw [show filesSpec (⟨[], true, 0, none⟩ :: walkForest [] root)
      = filesSpec (walkForest [] root) by simp [filesSpec]]
  exact filesSpec_walkF [] root

/-- The modified-file test in exact arithmetic: for a non-negative cursor
`t` (milliseconds), a file counts as modified precisely when its
nanosecond modification time reaches the first nanosecond of millisecond
`t + 1`; this is the truncating unit conversion at the cursor boundary. -/
theorem isMod_iff_millis (t : Int) (e : WalkEntry) :
    isMod t e = true ↔ (t + 1) * 1000000 ≤ (e.modTimeNanos : Int) := by
  unfold isMod
  rw [decide_eq_true_iff]
  omega

/-- Standard base64 of a non-empty byte string is non-empty. -/
theorem base64Encode_ne_nil : ∀ l : List Nat, l ≠ [] → base64Encode l ≠ []
  | [], h => absurd rfl h
  | [_], _ => by simp [base64Encode]
  | [_, _], _ => by simp [base64Encode]
  | _ :: _ :: _ :: _, _ => by simp [base64Encode]

/-! ## The claims -/

/-- C3: for every walked file and every cursor, the file is classified as
modified iff its modification time in milliseconds is strictly greater
than the cursor: the `modifiedList` a run returns is exactly the walk
entries passing the strict test `isMod`, the paths ever uploaded are
exactly that same list (so an entry failing the test is neither listed
nor uploaded), and an entry whose millisecond time equals the cursor
fails the test. -/
theorem C3_strict_cursor (comp : List Nat → List Nat) (uploadResp : Nat → Option Nat)
    (h : ∀ k, (uploadResp k).isSome) (root : List FSTree) (synctime : Int) :
    (syncFiles comp uploadResp root synctime).modifiedList
        = modSpec synctime (walkProject root)
    ∧ (syncFiles comp uploadResp root synctime).uploads.map (·.RelativePath)
        = modSpec synctime (walkProject root)
    ∧ (∀ e : WalkEntry, ((e.modTimeNanos / 1000000 : Nat) : Int) = synctime →
        isMod synctime e = false) := by
  rw [syncFiles_eq comp uploadResp h root synctime]
  refine ⟨rfl, ?_, ?_⟩
  · simp [upSpec, modSpec, List.map_map]
  · intro e he
    simp only [isMod, decide_eq_false_iff_not]
    omega

/-- Witness for C3 at the spec's boundary example: files with
millisecond times 100, 200 and 300 against cursor 200 yield exactly the
file with time 300 (200 is excluded). -/
theorem C3_strict_cursor_witness :
    (syncFiles id (fun _ => some 200)
      [.file "f100" ⟨100000000, some [49]⟩, .file "f200" ⟨200000000, some [50]⟩,
       .file "f300" ⟨300000000, some [51]⟩] 200).modifiedList = [["f300"]] :=
  (C3_strict_cursor id (fun _ => some 200) (fun _ => rfl)
    [.file "f100" ⟨100000000, some [49]⟩, .file "f200" ⟨200000000, some [50]⟩,
     .file "f300" ⟨300000000, some [51]⟩] 200).1.trans (by decide)

/-- C6 counterexample: with cursor 0 a file is NOT always modified — a
file whose modification time is within the first millisecond of the
epoch has `modifiedmillis = 0`, which is not strictly greater than 0, so
with `synctime = 0` the file appears in `fileList` but not in
`modifiedList`, contradicting `modifiedFiles == allFiles` regardless of
timestamps. -/
theorem C6_counterexample :
    (syncFiles id (fun _ => some 200) [.file "a" ⟨0, some [104]⟩] 0).modifiedList = []
    ∧ (syncFiles id (fun _ => some 200) [.file "a" ⟨0, some [104]⟩] 0).fileList
        = [["a"]] := by
  exact ⟨by decide, by decide⟩

/-- C6 as amended: with cursor 0, `modifiedFiles` equals `allFiles`
provided every regular file's modification time is at least one
millisecond after the epoch (`modTimeNanos ≥ 10^6`, i.e. its millisecond
value is positive); a file with millisecond value 0 is excluded. -/
theorem C6_full_sync (comp : List Nat → List Nat) (uploadResp : Nat → Option Nat)
    (h : ∀ k, (uploadResp k).isSome) (root : List FSTree)
    (hmt : ∀ e ∈ walkProject root, e.isDir = false → 1000000 ≤ e.modTimeNanos) :
    (syncFiles comp uploadResp root 0).modifiedList
      = (syncFiles comp uploadResp root 0).fileList := by
  rw [syncFiles_eq comp uploadResp h root 0]
  show modSpec 0 (walkProject root) = filesSpec (walkProject root)
  unfold modSpec filesSpec
  congr 1
  apply List.filter_congr
  intro e he
  by_cases hd : e.isDir
  · simp [hd]
  · have hd0 : e.isDir = false := by simpa using hd
    have h1 : 1000000 ≤ e.modTimeNanos := hmt e he hd0
    have h2 : isMod 0 e = true := by
      simp only [isMod, decide_eq_true_iff]
      omega
    simp [hd0, h2]

/-- Witness for the amended C6: one file one second after the epoch,
cursor 0, and the modified list equals the full file list. -/
theorem C6_full_sync_witness :
    (syncFiles id (fun _ => some 200) [.file "a" ⟨1000000000, some [104]⟩] 0).modifiedList
      = (syncFiles id (fun _ => some 200) [.file "a" ⟨1000000000, some [104]⟩] 0).fileList :=
  C6_full_sync id (fun _ => some 200) (fun _ => rfl)
    [.file "a" ⟨1000000000, some [104]⟩] (by decide)

/-- C7: in every run (any transport behaviour, crashes included) every
path of `modifiedList` also stands in `fileList`, and content is only
ever transmitted for paths of `modifiedList` — every issued upload's
path is in `modifiedList`, so an entry of `allFiles` absent from
`modifiedFiles` never has content on the wire. -/
theorem C7_changeset_invariant (comp : List Nat → List Nat) (uploadResp : Nat → Option Nat)
    (root : List FSTree) (t : Int) :
    (∀ p, p ∈ (syncFiles comp uploadResp root t).modifiedList →
      p ∈ (syncFiles comp uploadResp root t).fileList)
    ∧ (∀ m, m ∈ (syncFiles comp uploadResp root t).uploads →
      m.RelativePath ∈ (syncFiles comp uploadResp root t).modifiedList) := by
  constructor
  · exact syncFilesGo_mod_sub_file comp uploadResp t (walkProject root) [] [] []
      (by intro p hp; simp at hp)
  · exact syncFilesGo_uploads_in_mod comp uploadResp t (walkProject root) [] [] []
      (by intro m hm; simp at hm)

/-- Witness for C7: a concrete run whose single modified path is indeed
in the file list. -/
theorem C7_changeset_invariant_witness :
    (["m"] : List String) ∈
      (syncFiles id (fun _ => some 200) [.file "m" ⟨2000000, some [104]⟩] 0).fileList :=
  (C7_changeset_invariant id (fun _ => some 200)
    [.file "m" ⟨2000000, some [104]⟩] 0).1 ["m"] (by decide)

/-- C8: for every well-formed directory tree the walk produces exactly
one record per regular file — `fileList` equals the relative paths of
the regular files reachable by recursive descent — and no directory path
(the root included) ever appears in it. -/
theorem C8_walk_files_only (comp : List Nat → List Nat) (uploadResp : Nat → Option Nat)
    (h : ∀ k, (uploadResp k).isSome) (root : List FSTree) (t : Int)
    (hw : wfRoot root = true) :
    (syncFiles comp uploadResp root t).fileList = filePathsF [] root
    ∧ ∀ p, p ∈ ([] :: dirPathsF [] root) →
        p ∉ (syncFiles comp uploadResp root t).fileList := by
  have hfl : (syncFiles comp uploadResp root t).fileList = filePathsF [] root := by
    rw [syncFiles_eq comp uploadResp h root t]
    exact filesSpec_walkProject root
  refine ⟨hfl, ?_⟩
  intro p hp
  rw [hfl]
  rcases List.mem_cons.mp hp with rfl | hp
  · intro hf
    obtain ⟨t1, -, r, hr⟩ := filePathsF_shape [] root _ hf
    simp at hr
  · rw [wfRoot, Bool.and_eq_true] at hw
    exact dir_file_disjF [] root hw.1 hw.2 p hp

/-- Witness for C8 at the spec's example tree with files a, b/c and b/d:
the walk yields exactly those three relative paths and the directory b
does not appear. -/
theorem C8_walk_files_only_witness :
    (syncFiles id (fun _ => some 200)
        [.file "a" ⟨0, some [65]⟩,
         .dir "b" [.file "c" ⟨0, some [67]⟩, .file "d" ⟨0, some [68]⟩]] 0).fileList
      = [["a"], ["b", "c"], ["b", "d"]]
    ∧ (["b"] : List String) ∉
      (syncFiles id (fun _ => some 200)
        [.file "a" ⟨0, some [65]⟩,
         .dir "b" [.file "c" ⟨0, some [67]⟩, .file "d" ⟨0, some [68]⟩]] 0).fileList := by
  have h := C8_walk_files_only id (fun _ => some 200) (fun _ => rfl)
    [.file "a" ⟨0, some [65]⟩,
     .dir "b" [.file "c" ⟨0, some [67]⟩, .file "d" ⟨0, some [68]⟩]] 0 (by decide)
  exact ⟨h.1.trans (by decide), h.2 ["b"] (by decide)⟩

/-- C9: the value compared against the cursor is the modification time
in milliseconds, computed from the nanosecond time by truncating integer
division by 1,000,000 — the run's `modifiedList` is exactly the walk
entries passing `nanos / 1000000 > cursor`, at the boundary a file
counts as modified precisely when its nanosecond time reaches the first
nanosecond of millisecond `cursor + 1` — and the `timeStamp` the
end-of-sync call sends (which becomes the next run's cursor) is exactly
the run's millisecond cursor value, hence in the same unit. -/
theorem C9_millisecond_units (comp : List Nat → List Nat) (uploadResp : Nat → Option Nat)
    (endResp : Option Nat) (root : List FSTree) (t : Int)
    (h : ∀ k, (uploadResp k).isSome) :
    (syncFiles comp uploadResp root t).modifiedList
      = ((walkProject root).filter
          (fun e => !e.isDir && decide (((e.modTimeNanos / 1000000 : Nat) : Int) > t))).map
        (·.relPath)
    ∧ (∀ e : WalkEntry, isMod t e = true ↔ (t + 1) * 1000000 ≤ (e.modTimeNanos : Int))
    ∧ endTimeStamps (syncProjectGo comp uploadResp endResp root t).events = [t] := by
  refine ⟨?_, fun e => isMod_iff_millis t e, ?_⟩
  · rw [syncFiles_eq comp uploadResp h root t]
    rfl
  · unfold syncProjectGo
    rw [syncFiles_eq comp uploadResp h root t]
    cases endResp with
    | none => simp [endTimeStamps, List.filterMap_append, List.filterMap_map, Function.comp]
    | some s => simp [endTimeStamps, List.filterMap_append, List.filterMap_map, Function.comp]

/-- Witness for C9 at a concrete incremental run: one file at 300 ms,
cursor 200 ms. -/
theorem C9_millisecond_units_witness :
    (syncFiles id (fun _ => some 200) [.file "f" ⟨300000000, some [70]⟩] 200).modifiedList
      = ((walkProject [.file "f" ⟨300000000, some [70]⟩]).filter
          (fun e => !e.isDir && decide (((e.modTimeNanos / 1000000 : Nat) : Int) > 200))).map
        (·.relPath)
    ∧ (isMod 200 (⟨["f"], false, 300000000, some [70]⟩ : WalkEntry) = true ↔
        (200 + 1) * 1000000 ≤ ((300000000 : Nat) : Int))
    ∧ endTimeStamps
        (syncProjectGo id (fun _ => some 200) (some 200)
          [.file "f" ⟨300000000, some [70]⟩] 200).events = [200] := by
  have h := C9_millisecond_units id (fun _ => some 200) (some 200)
    [.file "f" ⟨300000000, some [70]⟩] 200 (fun _ => rfl)
  exact ⟨h.1, h.2.1 ⟨["f"], false, 300000000, some [70]⟩, h.2.2⟩

/-- C10: every envelope actually issued on an upload call has
`isDirectory = false` and a non-empty encoded content — directories and
unchanged files never produce an upload — granted the zlib library
contract that compressed output is never the empty byte string (a zlib
stream always carries a header and a checksum). -/
theorem C10_wire_envelopes (comp : List Nat → List Nat) (uploadResp : Nat → Option Nat)
    (root : List FSTree) (t : Int) (hcomp : ∀ x, comp x ≠ []) :
    ∀ m, m ∈ (syncFiles comp uploadResp root t).uploads →
      m.IsDirectory = false ∧ m.Message ≠ [] := by
  intro m hm
  refine syncFilesGo_uploads_prop comp uploadResp t
    (fun q => q.IsDirectory = false ∧ q.Message ≠ []) ?_ (walkProject root) [] [] []
    (by intro q hq; simp at hq) m hm
  intro e
  exact ⟨rfl, base64Encode_ne_nil _ (hcomp _)⟩

/-- Witness for C10: the envelope of a concrete run with a header-adding
compressor is a non-directory with non-empty content. -/
theorem C10_wire_envelopes_witness :
    ((⟨false, ["m"], encodeWith (fun x => 120 :: x) [104]⟩ : FileUploadMsg).IsDirectory = false
      ∧ (⟨false, ["m"], encodeWith (fun x => 120 :: x) [104]⟩ : FileUploadMsg).Message ≠ []) :=
  C10_wire_envelopes (fun x => 120 :: x) (fun _ => some 200)
    [.file "m" ⟨2000000, some [104]⟩] 0 (fun x => by simp)
    ⟨false, ["m"], encodeWith (fun x => 120 :: x) [104]⟩ (by decide)

/-- C2: contradicting the claim (and the code's own comment "Skip this
file if there is an error reading it"), a modified file whose read
fails is NOT skipped: the error of `ioutil.ReadFile` is shadowed by the
never-failing `json.Marshal`, so the file is appended to `modifiedList`
and an upload is issued carrying the encoding of the empty byte string. -/
theorem C2_read_error_uploaded :
    (syncFiles id (fun _ => some 200) [.file "bad" ⟨2000000, none⟩] 0).modifiedList
        = [["bad"]]
    ∧ (syncFiles id (fun _ => some 200) [.file "bad" ⟨2000000, none⟩] 0).uploads
        = [⟨false, ["bad"], encodeWith id []⟩] := by
  exact ⟨by decide, by decide⟩

/-- C1: the encode pipeline loses information on byte sequences that are
not valid UTF-8, so no decode can restore them: `json.Marshal` coerces
every invalid byte to U+FFFD, hence the distinct one-byte contents 0xFF
and 0xFE encode to the same string under every compressor, and
`decode(encode(b)) == b` cannot hold for both. -/
theorem C1_encode_collision :
    (∀ comp : List Nat → List Nat, encodeWith comp [0xFF] = encodeWith comp [0xFE])
    ∧ ([0xFF] : List Nat) ≠ [0xFE] := by
  constructor
  · intro comp
    unfold encodeWith
    rw [show jsonMarshalStringBytes [0xFF] = jsonMarshalStringBytes [0xFE] from by decide]
  · decide

/-- C4 counterexample: a non-success HTTP status is a transport failure
in the spec's taxonomy, yet the code never inspects statuses: with both
uploads and the end call answered by status 500, the run still issues a
second upload and then the end call after the first (failing) upload —
operations continue after a failing call. -/
theorem C4_counterexample :
    ((syncProjectGo id (fun _ => some 500) (some 500)
        [.file "a" ⟨2000000, some [65]⟩, .file "b" ⟨2000000, some [66]⟩] 0).events).map
      CallEvent.isEnd = [false, false, true] := by
  decide

/-- C4 as amended: only network-level transport errors are fatal — a
`client.Do` error on the begin call makes `BindProject` return with no
further call, and a `client.Do` error on an upload call panics the
process so the end call is never issued; a non-success HTTP status on
any call is not detected and the run continues (see the
counterexample). -/
theorem C4_network_errors_fatal (comp : List Nat → List Nat) (uploadResp : Nat → Option Nat)
    (endResp : Option Nat) (req : BindRequest) (root : List FSTree) (t : Int) :
    (bindProjectGo comp uploadResp none endResp req root).events = [.bindStart req]
    ∧ ((syncFiles comp uploadResp root t).crashed = true →
        ∀ r, CallEvent.uploadEnd r ∉ (syncProjectGo comp uploadResp endResp root t).events) := by
  refine ⟨rfl, ?_⟩
  intro hc r
  unfold syncProjectGo
  simp [hc]

/-- Witness for the amended C4: with a transport whose first upload
request gets no response, the begin-error run stops at the start call,
and the crashed sync run has no end-of-sync event. -/
theorem C4_network_errors_fatal_witness :
    (bindProjectGo id (fun _ => none) none (some 200)
        ⟨"go", "docker", "proj", "/p"⟩ [.file "a" ⟨2000000, some [65]⟩]).events
      = [.bindStart ⟨"go", "docker", "proj", "/p"⟩]
    ∧ CallEvent.uploadEnd ⟨[], [], 0⟩ ∉
        (syncProjectGo id (fun _ => none) (some 200)
          [.file "a" ⟨2000000, some [65]⟩] 0).events :=
  ⟨(C4_network_errors_fatal id (fun _ => none) (some 200)
      ⟨"go", "docker", "proj", "/p"⟩ [.file "a" ⟨2000000, some [65]⟩] 0).1,
   (C4_network_errors_fatal id (fun _ => none) (some 200)
      ⟨"go", "docker", "proj", "/p"⟩ [.file "a" ⟨2000000, some [65]⟩] 0).2 (by decide)
     ⟨[], [], 0⟩⟩

/-- C5: in a bind run whose begin call yields a projectID, the event
sequence is exactly the begin call, then one upload per modified file
(in walk order), then the end call last; the uploaded paths are exactly
`modifiedFiles`, so the end call happens only after every modified file
had its upload attempt; and when the begin call fails on the network or
its response carries no projectID, no upload and no end call happen. -/
theorem C5_call_order (comp : List Nat → List Nat) (uploadResp : Nat → Option Nat)
    (h : ∀ k, (uploadResp k).isSome) (req : BindRequest) (pid : String)
    (st en : Nat) (root : List FSTree) (endResp2 : Option Nat) :
    (bindProjectGo comp uploadResp (some (st, some pid)) (some en) req root).events
      = .bindStart req :: (upSpec comp 0 (walkProject root)).map .upload ++ [.bindEnd pid]
    ∧ (upSpec comp 0 (walkProject root)).map (·.RelativePath) = modSpec 0 (walkProject root)
    ∧ (bindProjectGo comp uploadResp none endResp2 req root).events = [.bindStart req]
    ∧ (bindProjectGo comp uploadResp (some (st, none)) endResp2 req root).events
      = [.bindStart req] := by
  refine ⟨?_, ?_, rfl, rfl⟩
  · unfold bindProjectGo
    rw [syncFiles_eq comp uploadResp h root 0]
    simp
  · simp [upSpec, modSpec, List.map_map]

/-- Witness for C5 at the spec's end-to-end scenario: one file main.txt
with content "hello" modified at 500 ms, bind with cursor 0: exactly one
begin call, one upload call with the encoded content, one end call, in
that order. -/
theorem C5_call_order_witness :
    (bindProjectGo id (fun _ => some 200) (some (200, some "proj1")) (some 200)
        ⟨"go", "docker", "proj", "/p"⟩
        [.file "main.txt" ⟨500000000, some [104, 101, 108, 108, 111]⟩]).events
      = [.bindStart ⟨"go", "docker", "proj", "/p"⟩,
         .upload ⟨false, ["main.txt"], encodeWith id [104, 101, 108, 108, 111]⟩,
         .bindEnd "proj1"] :=
  ((C5_call_order id (fun _ => some 200) (fun _ => rfl) ⟨"go", "docker", "proj", "/p"⟩
      "proj1" 200 200 [.file "main.txt" ⟨500000000, some [104, 101, 108, 108, 111]⟩]
      (some 200)).1).trans (by decide)

end Codewind
